import Mathlib

/-!
Verification of the calculator-with-photo repository
(`src/calculator.js`, `src/utils/toast.js` sanitizer half, and the OCR
history module). JavaScript numbers are modelled as exact rational
values `JQ` (numerator/denominator over `Int`/`Nat`, not normalized, so
that every operation is kernel-computable); JavaScript strings are Lean
`String`s manipulated through their underlying `List Char`.
-/

/-! ### Characters and small helpers -/

/-- Decimal digit test, as in the JavaScript character classes `[0-9]` / `\d`. -/
def isDigitCh (c : Char) : Bool := 48 ≤ c.toNat && c.toNat ≤ 57

/-- The four ASCII operator characters of the sanitizer class `[+\-*/]`. -/
def isOpCh (c : Char) : Bool := c == '+' || c == '-' || c == '*' || c == '/'

/-- Dot test for the sanitizer's `\.` class. -/
def isDotCh (c : Char) : Bool := c == '.'

/-- Whitespace as matched by the JavaScript `\s` class (the common code
points; the repository's inputs only ever contain plain spaces). -/
def isWhitespaceCh (c : Char) : Bool :=
  c == ' ' || c == '\t' || c == '\n' || c == '\r' || c == '\x0b' || c == '\x0c' || c == ' '

/-- Character allowed by the sanitizer whitelist `^[0-9+\-*/().]+$`. -/
def isAllowedCh (c : Char) : Bool :=
  isDigitCh c || isOpCh c || c == '(' || c == ')' || c == '.'

/-- The decimal digit character for `n % 10`. -/
def digitChar (n : Nat) : Char :=
  match n % 10 with
  | 0 => '0' | 1 => '1' | 2 => '2' | 3 => '3' | 4 => '4'
  | 5 => '5' | 6 => '6' | 7 => '7' | 8 => '8' | _ => '9'

/-- Decimal digits of `n`, most significant first; fuel-based so that it
is structurally recursive (fuel `n+1` always suffices). -/
def natCharsAux : Nat → Nat → List Char
  | 0, _ => []
  | fuel+1, n =>
    if n < 10 then [digitChar n]
    else natCharsAux fuel (n / 10) ++ [digitChar (n % 10)]

/-- Decimal representation of a natural number as a character list. -/
def natChars (n : Nat) : List Char := natCharsAux (n + 1) n

/-- Number of decimal digits of `n`. -/
def natDigitCount (n : Nat) : Nat := (natChars n).length

/-- Value of a list of digit characters read in base 10. -/
def digitsToNat (l : List Char) : Nat :=
  l.foldl (fun a c => a * 10 + (c.toNat - 48)) 0

/-! ### Exact rational model of JavaScript numbers

`JQ` is a raw fraction `n / d`.  The denominator is kept positive by
construction and is never normalized, so all arithmetic is plain
`Int`/`Nat` arithmetic that the kernel can evaluate.  A JavaScript
`NaN` is modelled as `Option.none` at the use sites (`parseFloat`). -/

structure JQ where
  n : Int
  d : Nat
deriving DecidableEq, Repr

def JQ.ofInt (i : Int) : JQ := ⟨i, 1⟩

def JQ.add (a b : JQ) : JQ := ⟨a.n * b.d + b.n * a.d, a.d * b.d⟩

def JQ.sub (a b : JQ) : JQ := ⟨a.n * b.d - b.n * a.d, a.d * b.d⟩

def JQ.mul (a b : JQ) : JQ := ⟨a.n * b.n, a.d * b.d⟩

/-- Division of exact fractions.  Only ever used after the caller has
checked the divisor is nonzero (both `compute` and the expression
evaluator guard division by zero). -/
def JQ.div (a b : JQ) : JQ :=
  if b.n < 0 then ⟨-(a.n * b.d), a.d * b.n.natAbs⟩
  else ⟨a.n * b.d, a.d * b.n.natAbs⟩

def JQ.neg (a : JQ) : JQ := ⟨-a.n, a.d⟩

def JQ.abs (a : JQ) : JQ := ⟨|a.n|, a.d⟩

/-- Value equality of fractions (cross multiplication; denominators are
positive). -/
def JQ.eq (a b : JQ) : Bool := a.n * b.d == b.n * a.d

def JQ.isZero (a : JQ) : Bool := a.n == 0

def JQ.isNeg (a : JQ) : Bool := a.n < 0

/-- `a ≤ b` on values (denominators are positive). -/
def JQ.le (a b : JQ) : Bool := a.n * b.d ≤ b.n * a.d

/-- `a < b` on values. -/
def JQ.lt (a b : JQ) : Bool := a.n * b.d < b.n * a.d

/-- The power of ten `10^e` as an exact fraction (`e` may be negative). -/
def zpow10 (e : Int) : JQ :=
  if 0 ≤ e then ⟨(10:Int) ^ e.toNat, 1⟩ else ⟨1, 10 ^ (-e).toNat⟩

/-- Floor of an exact fraction (denominator positive). -/
def JQ.floor (a : JQ) : Int := Int.fdiv a.n a.d

/-- Round half away from zero for nonnegative values, as the ECMAScript
`toPrecision` / `toExponential` digit selection does ("pick the larger
candidate" on ties).  Only applied to absolute values here. -/
def JQ.roundHalfUp (a : JQ) : Int := JQ.floor ⟨2 * a.n + a.d, 2 * a.d⟩

/-! ### JavaScript number values

A JavaScript number is an IEEE double: a finite value, a signed
infinity, or `NaN`.  Finite values are kept as exact rationals (the
claims only exercise values on which double rounding is exact), but
overflow is modelled faithfully: any arithmetic result whose magnitude
reaches the double overflow threshold `2^1024 - 2^970` becomes the
corresponding infinity, exactly as IEEE rounding-to-nearest does.  The
negative zero of IEEE is not distinguished from zero (its only visible
effect would be the sign of an infinite result, which nothing here
observes); gradual underflow is not modelled (tiny values stay exact:
every display path treats them identically). -/

inductive JsNum
  | fin (q : JQ)
  | inf (neg : Bool)
  | nan
deriving DecidableEq, Repr

/-- Rounding to nearest sends any real of magnitude at least
`2^1024 - 2^970` to infinity (the largest finite double is
`2^1024 - 2^971`).  The threshold is written as a numeral so the
kernel can compute with it; `overflowThreshold_eq` checks the value. -/
def overflowThreshold : JQ :=
  ⟨179769313486231580793728971405303415079934132710037826936173778980444968292764750946649017977587207096330286416692887910946555547851940402630657488671505820681908902000708383676273854845817711531764475730270069855571366959622842914819860834936475292719074168444365510704342711559699508093042880177904174497792, 1⟩

theorem overflowThreshold_eq : overflowThreshold.n = 2 ^ 1024 - 2 ^ 970 := by
  norm_num [overflowThreshold]

/-- Convert an exact rational result to the JavaScript number it
becomes: saturate to a signed infinity past the overflow threshold. -/
def JsNum.ofRat (q : JQ) : JsNum :=
  if overflowThreshold.le q.abs then .inf q.isNeg else .fin q

def JsNum.isFinite : JsNum → Bool
  | .fin _ => true
  | _ => false

def JsNum.isNaN : JsNum → Bool
  | .nan => true
  | _ => false

/-- The JavaScript test `x === 0` (`-0` is identified with `0`). -/
def JsNum.eqZero : JsNum → Bool
  | .fin q => q.isZero
  | _ => false

def JsNum.negate : JsNum → JsNum
  | .fin q => .fin q.neg
  | .inf b => .inf (!b)
  | .nan => .nan

/-- JavaScript `+` on numbers. -/
def JsNum.addN : JsNum → JsNum → JsNum
  | .fin a, .fin b => .ofRat (a.add b)
  | .inf a, .inf b => if a == b then .inf a else .nan
  | .inf a, .fin _ => .inf a
  | .fin _, .inf b => .inf b
  | _, _ => .nan

/-- JavaScript `-` on numbers. -/
def JsNum.subN (a b : JsNum) : JsNum := a.addN b.negate

/-- JavaScript `*` on numbers. -/
def JsNum.mulN : JsNum → JsNum → JsNum
  | .fin a, .fin b => .ofRat (a.mul b)
  | .inf a, .inf b => .inf (a != b)
  | .inf a, .fin q => if q.isZero then .nan else .inf (a != q.isNeg)
  | .fin q, .inf b => if q.isZero then .nan else .inf (b != q.isNeg)
  | _, _ => .nan

/-- JavaScript `/` on numbers: division of a nonzero number by zero
gives an infinity, `0/0` gives `NaN`. -/
def JsNum.divN : JsNum → JsNum → JsNum
  | .fin a, .fin b =>
    if b.isZero then (if a.isZero then .nan else .inf a.isNeg)
    else .ofRat (a.div b)
  | .inf a, .fin q => .inf (a != q.isNeg)
  | .fin _, .inf _ => .fin ⟨0, 1⟩
  | _, _ => .nan

/-! ### The expression sanitizer — `src/utils/toast.js` -/

/-- The fancy-glyph normalization of `sanitizeExpression`: multiplication
variants `× ✕ ✖` become `*`, division variants `÷ ∕` become `/`, minus
and dash variants `− – —` become `-`.  (The source's final
parenthesis-replace maps `(`↦`(` and `)`↦`)`, i.e. is the identity.) -/
def normalizeGlyph (c : Char) : Char :=
  if c == '×' || c == '✕' || c == '✖' then '*'
  else if c == '÷' || c == '∕' then '/'
  else if c == '−' || c == '–' || c == '—' then '-'
  else c

/-- The locale normalization `replace(/,/g, '.')`. -/
def commaToDot (c : Char) : Char := if c == ',' then '.' else c

/-- The replacement callback of `replace(/([+\-*/]){2,}/g, ...)`: a run
consisting entirely of `-` collapses to `'-'`, any other run keeps its
first character.  `c` is the first character of the run, `run` the rest. -/
def opRunReplacement (c : Char) (run : List Char) : Char :=
  if (c :: run).all (fun x => x == '-') then '-' else c

/-- The replacement callback of `replace(/\.{2,}/g, '.')`. -/
def dotRunReplacement (_c : Char) (_run : List Char) : Char := '.'

/-- Global regex replacement of every maximal run of two or more
characters satisfying `p` by the single character `emit first rest`,
modelling `String.prototype.replace` with a `{2,}` quantifier.  (A
length-1 run is not matched by `{2,}`; emitting `emit c []` for it is
the same as keeping it because both callbacks return the run's first
character there.)  Fuel-based for structural recursion; fuel `l.length`
suffices. -/
def collapseRunsAux (p : Char → Bool) (emit : Char → List Char → Char) :
    Nat → List Char → List Char
  | 0, _ => []
  | _fuel+1, [] => []
  | fuel+1, c :: rest =>
    if p c then
      emit c (rest.takeWhile p) :: collapseRunsAux p emit fuel (rest.dropWhile p)
    else
      c :: collapseRunsAux p emit fuel rest

/-- `sanitized.replace(/([+\-*/]){2,}/g, ...)`. -/
def collapseOps (l : List Char) : List Char :=
  collapseRunsAux isOpCh opRunReplacement l.length l

/-- `sanitized.replace(/\.{2,}/g, '.')`. -/
def collapseDots (l : List Char) : List Char :=
  collapseRunsAux isDotCh dotRunReplacement l.length l

/-- The test `/^[+*\/]/.test(sanitized)`. -/
def headIsStrippable (l : List Char) : Bool :=
  match l.head? with
  | some c => c == '+' || c == '*' || c == '/'
  | none => false

/-- `if (/^[+*\/]/.test(sanitized)) sanitized = sanitized.substring(1)`. -/
def stripLeadingOp (l : List Char) : List Char :=
  if headIsStrippable l then l.tail else l

/-- The test `/[+\-*\/]$/.test(sanitized)`. -/
def lastIsOp (l : List Char) : Bool :=
  match l.getLast? with
  | some c => isOpCh c
  | none => false

/-- `if (/[+\-*\/]$/.test(sanitized)) sanitized = sanitized.slice(0, -1)`. -/
def stripTrailingOp (l : List Char) : List Char :=
  if lastIsOp l then l.dropLast else l

/-- The running parenthesis count of `hasBalancedParentheses`. -/
def balAux : List Char → Int → Bool
  | [], count => count == 0
  | c :: rest, count =>
    let count := if c == '(' then count + 1 else count
    let count := if c == ')' then count - 1 else count
    if count < 0 then false else balAux rest count

/-- `hasBalancedParentheses` from `src/utils/toast.js`: running count,
never negative, ends at zero. -/
def hasBalancedParentheses (text : List Char) : Bool := balAux text 0

/-- Steps 1–3 of `sanitizeExpression`: remove all whitespace, replace
fancy math glyphs with ASCII, replace commas with dots. -/
def sanitizeNormalize (l : List Char) : List Char :=
  ((l.filter (fun c => !isWhitespaceCh c)).map normalizeGlyph).map commaToDot

/-- Steps 5–7 of `sanitizeExpression`: collapse operator runs, collapse
dot runs, strip a leading `+ * /`, strip a trailing operator. -/
def sanitizeCollapse (l1 : List Char) : List Char :=
  stripTrailingOp (stripLeadingOp (collapseDots (collapseOps l1)))

/-- Steps 8–9 of `sanitizeExpression`: parenthesis balance and the
at-least-one-digit requirement. -/
def sanitizeFinal (l5 : List Char) : String :=
  if hasBalancedParentheses l5 then
    if l5.any isDigitCh then String.mk l5 else ""
  else ""

/-- `sanitizeExpression` from `src/utils/toast.js`.  The argument is an
`Option String` so that the JavaScript non-string / missing argument
case (`!text || typeof text !== 'string'`) is representable.  The
whitelist `^[0-9+\-*/().]+$` fails on the empty string, hence the
`isEmpty` disjunct. -/
def sanitizeExpression : Option String → String
  | none => ""
  | some t =>
    if t = "" then ""
    else
      if (sanitizeNormalize t.data).isEmpty || !((sanitizeNormalize t.data).all isAllowedCh)
      then ""
      else sanitizeFinal (sanitizeCollapse (sanitizeNormalize t.data))

/-- `normalizeForDisplay` from `src/utils/toast.js`: `*`→`×`, `/`→`÷`. -/
def normalizeForDisplay (expression : String) : String :=
  if expression = "" then ""
  else String.mk (expression.data.map fun c =>
    if c == '*' then '×' else if c == '/' then '÷' else c)

/-! ### Number parsing and display formatting

`parseFloat` and the ECMAScript number-to-string conversions
(`Number.prototype.toString`, `toPrecision`, `toExponential`) are
modelled on exact rationals.  On the values this calculator's claims
exercise (integers and short decimal fractions, all exactly
representable as binary doubles) these agree with the JavaScript
semantics. -/

/-- Exponent part of a `parseFloat` literal: `[eE][+-]?digits`.  When no
digit follows, the exponent marker is not part of the number and the
exponent is `0` (JavaScript stops parsing at the prefix). -/
def pfExpPart (l : List Char) : Int :=
  let sgnRest :=
    match l with
    | '-' :: t => (true, t)
    | '+' :: t => (false, t)
    | _ => (false, l)
  let ds := sgnRest.2.takeWhile isDigitCh
  if ds.isEmpty then 0
  else if sgnRest.1 then -(digitsToNat ds : Int) else (digitsToNat ds : Int)

/-- JavaScript `parseFloat`: skip leading whitespace, optional sign,
then either the `Infinity` literal or digits, optional `.digits`,
optional exponent; the longest numeric prefix is taken and trailing
junk is ignored.  `JsNum.nan` models `NaN` (no number at all); a
literal whose magnitude reaches the double overflow threshold parses
to an infinity, as in JavaScript. -/
def parseFloat (s : String) : JsNum :=
  let l := s.data.dropWhile isWhitespaceCh
  let negRest :=
    match l with
    | '-' :: r => (true, r)
    | '+' :: r => (false, r)
    | _ => (false, l)
  let l1 := negRest.2
  if l1.take 8 = ['I', 'n', 'f', 'i', 'n', 'i', 't', 'y'] then JsNum.inf negRest.1
  else
    let ds := l1.takeWhile isDigitCh
    let l2 := l1.dropWhile isDigitCh
    let fsRest :=
      match l2 with
      | '.' :: r => (r.takeWhile isDigitCh, r.dropWhile isDigitCh)
      | _ => ([], l2)
    let fs := fsRest.1
    if ds.isEmpty && fs.isEmpty then JsNum.nan
    else
      let mag := JQ.add ⟨(digitsToNat ds : Int), 1⟩ ⟨(digitsToNat fs : Int), 10 ^ fs.length⟩
      let expo : Int :=
        match fsRest.2 with
        | 'e' :: r => pfExpPart r
        | 'E' :: r => pfExpPart r
        | _ => 0
      let v := JQ.mul mag (zpow10 expo)
      JsNum.ofRat (if negRest.1 then JQ.neg v else v)

/-- Sign, mantissa digits and decimal exponent: the value is
`±mant × 10^exp`, with `mant` carrying no trailing zeros. -/
structure DecRepr where
  neg : Bool
  mant : Nat
  exp : Int
deriving DecidableEq, Repr

/-- Remove trailing decimal zeros of a mantissa, counting how many were
removed.  Fuel-based (the digit count bounds the iterations). -/
def stripZerosAux : Nat → Nat → Nat × Nat
  | 0, m => (m, 0)
  | fuel+1, m =>
    if m % 10 == 0 && m != 0 then
      let r := stripZerosAux fuel (m / 10)
      (r.1, r.2 + 1)
    else (m, 0)

/-- Largest `e` with `10^e ≤ |q|` (requires `q ≠ 0`): digit counts of
numerator and denominator give a two-candidate window, resolved by one
comparison. -/
def decExp (q : JQ) : Int :=
  let e0 : Int := (natDigitCount q.n.natAbs : Int) - (natDigitCount q.d : Int)
  if (zpow10 e0).le q.abs then e0 else e0 - 1

/-- Round `q` to `p` significant decimal digits, as the ECMAScript
`toPrecision(p)` digit selection does, returning the normalized
sign/mantissa/exponent triple. -/
def roundSigRepr (p : Nat) (q : JQ) : DecRepr :=
  if q.isZero then ⟨false, 0, 0⟩
  else
    let e := decExp q
    let m0 := (JQ.roundHalfUp (q.abs.mul (zpow10 ((p : Int) - 1 - e)))).toNat
    let me1 := if m0 = 10 ^ p then ((10:Nat) ^ (p - 1), e + 1) else (m0, e)
    let mc := stripZerosAux p me1.1
    ⟨q.isNeg, mc.1, me1.2 - ((p : Int) - 1) + (mc.2 : Int)⟩

def renderSign (neg : Bool) : List Char := if neg then ['-'] else []

/-- Plain decimal rendering of `±m × 10^t` (ECMAScript `ToString` on a
number whose decimal exponent lies in the plain range). -/
def renderPlainChars (neg : Bool) (m : Nat) (t : Int) : List Char :=
  let D := natChars m
  let body :=
    if 0 ≤ t then D ++ List.replicate t.toNat '0'
    else
      let k := (-t).toNat
      if k < D.length then D.take (D.length - k) ++ '.' :: D.drop (D.length - k)
      else '0' :: '.' :: (List.replicate (k - D.length) '0' ++ D)
  renderSign neg ++ body

/-- Exponential rendering `d[.ddd]e±E` used by ECMAScript `ToString`
outside the plain range (`D` are the mantissa digits, no trailing
zeros). -/
def renderExpChars (neg : Bool) (D : List Char) (E : Int) : List Char :=
  renderSign neg ++ D.take 1 ++ (if D.length ≤ 1 then [] else '.' :: D.drop 1)
    ++ 'e' :: (if 0 ≤ E then '+' :: natChars E.toNat else '-' :: natChars (-E).toNat)

/-- ECMAScript `ToString` of the exact value `±mant × 10^exp`: plain
decimal notation when the decimal exponent is in `[-6, 20]`, otherwise
exponential notation. -/
def jsToStringFin (r : DecRepr) : String :=
  if r.mant = 0 then "0"
  else
    let D := natChars r.mant
    let E : Int := r.exp + (D.length : Int) - 1
    if -6 ≤ E ∧ E ≤ 20 then String.mk (renderPlainChars r.neg r.mant r.exp)
    else String.mk (renderExpChars r.neg D E)

/-- `parseFloat(num.toPrecision(12)).toString()` — the trailing-zero
stripping display rule of `formatNumber` / `evaluateExpression`. -/
def jsToString12 (q : JQ) : String := jsToStringFin (roundSigRepr 12 q)

/-- `Number.prototype.toExponential(6)`: one integer digit, exactly six
fraction digits, explicitly signed exponent. -/
def toExponential6 (q : JQ) : String :=
  if q.isZero then "0.000000e+0"
  else
    let e := decExp q
    let m0 := (JQ.roundHalfUp (q.abs.mul (zpow10 (6 - e)))).toNat
    let me1 := if m0 = 10 ^ 7 then ((10:Nat) ^ 6, e + 1) else (m0, e)
    let D := natChars me1.1
    String.mk (renderSign q.isNeg ++ D.take 1 ++ '.' :: D.drop 1
      ++ 'e' :: (if 0 ≤ me1.2 then '+' :: natChars me1.2.toNat else '-' :: natChars (-me1.2).toNat))

/-- `Number.prototype.toString` on a JavaScript number value:
`"Infinity"`, `"-Infinity"` and `"NaN"` for the non-finite values. -/
def jsToStringNum : JsNum → String
  | .fin q => jsToStringFin (roundSigRepr 17 q)
  | .inf true => "-Infinity"
  | .inf false => "Infinity"
  | .nan => "NaN"

/-- `toExponential(6)` on a JavaScript number value: the non-finite
values render as themselves (`Infinity.toExponential(6)` is
`"Infinity"`). -/
def toExponential6N : JsNum → String
  | .fin q => toExponential6 q
  | .inf true => "-Infinity"
  | .inf false => "Infinity"
  | .nan => "NaN"

/-- `parseFloat(num.toPrecision(12)).toString()` on a JavaScript number
value (`Infinity.toPrecision(12)` is `"Infinity"`, which round-trips). -/
def jsToString12N : JsNum → String
  | .fin q => jsToStringFin (roundSigRepr 12 q)
  | .inf true => "-Infinity"
  | .inf false => "Infinity"
  | .nan => "NaN"

/-- Comparison `threshold <= Math.abs(x)` on a JavaScript number. -/
def JsNum.absGe (x : JsNum) (t : JQ) : Bool :=
  match x with
  | .fin q => t.le q.abs
  | .inf _ => true
  | .nan => false

/-- Comparison `Math.abs(x) < threshold` on a JavaScript number. -/
def JsNum.absLt (x : JsNum) (t : JQ) : Bool :=
  match x with
  | .fin q => q.abs.lt t
  | .inf _ => false
  | .nan => false

/-! ### The Calculator state machine — `src/calculator.js` -/

/-- The four operator symbols the UI passes to `setOperator`.  The
source stores the raw symbol string; the claims only concern calls
"with valid arguments", which are exactly these four. -/
inductive Op
  | add
  | sub
  | mul
  | div
deriving DecidableEq, Repr

def Op.symbol : Op → String
  | .add => "+"
  | .sub => "-"
  | .mul => "×"
  | .div => "÷"

/-- The state record created by `reset()`. -/
structure CalcState where
  current : String
  previous : Option String
  operator : Option Op
  overwrite : Bool
  expression : String
deriving DecidableEq, Repr

/-- `reset()`: the initial zero state. -/
def resetState : CalcState :=
  { current := "0", previous := none, operator := none, overwrite := false, expression := "" }

/-- `inputDigit(digit)` for a valid digit (the source throws on
anything failing `/^[0-9]$/`; a `Fin 10` argument carries exactly the
validated digits). -/
def inputDigit (d : Fin 10) (s : CalcState) : CalcState :=
  if s.overwrite then
    { s with current := String.mk [digitChar d.val], overwrite := false }
  else if 12 ≤ s.current.length then s
  else if s.current = "0" then { s with current := String.mk [digitChar d.val] }
  else { s with current := String.mk (s.current.data ++ [digitChar d.val]) }

/-- `inputDot()`. -/
def inputDot (s : CalcState) : CalcState :=
  if s.overwrite then { s with current := "0.", overwrite := false }
  else if s.current.data.contains '.' then s
  else { s with current := String.mk (s.current.data ++ ['.']) }

/-- `toggleSign()`. -/
def toggleSign (s : CalcState) : CalcState :=
  if s.current = "0" then s
  else if s.current.data.head? = some '-' then
    { s with current := String.mk s.current.data.tail }
  else { s with current := String.mk ('-' :: s.current.data) }

/-- `formatNumber()`: no-op on `NaN`; exponential with six fraction
digits outside `[1e-12, 1e12)` (which captures infinities), otherwise
round to 12 significant digits and strip trailing zeros. -/
def formatNumber (s : CalcState) : CalcState :=
  if (parseFloat s.current).isNaN then s
  else if (parseFloat s.current).absGe (zpow10 12) then
    { s with current := toExponential6N (parseFloat s.current) }
  else if (parseFloat s.current).absLt (zpow10 (-12)) && !(parseFloat s.current).eqZero then
    { s with current := toExponential6N (parseFloat s.current) }
  else { s with current := jsToString12N (parseFloat s.current) }

/-- `inputPercent()`. -/
def inputPercent (s : CalcState) : CalcState :=
  if (parseFloat s.current).isNaN then s
  else formatNumber
    { s with current := jsToStringNum ((parseFloat s.current).divN (.fin ⟨100, 1⟩)) }

/-- `clearAll()`. -/
def clearAll (_s : CalcState) : CalcState := resetState

/-- `clearEntry()`. -/
def clearEntry (s : CalcState) : CalcState :=
  { s with current := "0", overwrite := false }

/-- The arithmetic cases of `compute()`'s switch, on JavaScript
numbers (division by zero is guarded separately). -/
def applyOp (op : Op) (prev curr : JsNum) : JsNum :=
  match op with
  | .add => prev.addN curr
  | .sub => prev.subN curr
  | .mul => prev.mulN curr
  | .div => prev.divN curr

/-- The successful tail of `compute()`: store the formatted result,
rewrite `expression` from the original operand strings, clear the
pending operation and set overwrite mode. -/
def computeFinish (s : CalcState) (origPrev origCurr : String) (op : Op) (result : JsNum) :
    CalcState :=
  let s1 := formatNumber { s with current := jsToStringNum result }
  { s1 with
    expression := String.mk (origPrev.data ++ ' ' :: (Op.symbol op).data ++ ' ' :: origCurr.data),
    operator := none, previous := none, overwrite := true }

/-- `compute()`. -/
def compute (s : CalcState) : CalcState :=
  match s.operator, s.previous with
  | some op, some prevStr =>
    if (parseFloat prevStr).isNaN || (parseFloat s.current).isNaN then
      { s with current := "Error" }
    else
      match op with
      | Op.div =>
        if (parseFloat s.current).eqZero then
          { s with current := "Cannot divide by zero", operator := none, previous := none }
        else computeFinish s prevStr s.current op
          ((parseFloat prevStr).divN (parseFloat s.current))
      | _ => computeFinish s prevStr s.current op
          (applyOp op (parseFloat prevStr) (parseFloat s.current))
  | _, _ => s

/-- Lines 73–80 of `setOperator`: move `current` into `previous`,
store the operator, set overwrite mode and rebuild `expression`. -/
def installOperator (op : Op) (t : CalcState) : CalcState :=
  { t with previous := some t.current, operator := some op, overwrite := true,
           expression := String.mk (t.current.data ++ ' ' :: (Op.symbol op).data) }

/-- `setOperator(operator)`: chain a pending operation first when not in
overwrite mode. -/
def setOperator (op : Op) (s : CalcState) : CalcState :=
  installOperator op (if s.operator.isSome && !s.overwrite then compute s else s)

/-- `getCurrentDisplay()`. -/
def getCurrentDisplay (s : CalcState) : String := s.current

/-! ### The external safe evaluator (mathjs `evaluate`)

Modelled from the spec: the repository calls the third-party `mathjs`
`evaluate` (not part of this repository's sources) on the cleaned
expression.  Per the spec's collaborator contract it "accepts a
sanitized arithmetic string (digits, `+ - * / ( )`, dot)" and either
fails (throws — here `Except.error`) or returns a numeric result; like
IEEE arithmetic, mathjs yields the non-finite `Infinity` for division
of a nonzero number by zero and `NaN` for `0/0`, which the caller's
`isFinite` check then rejects.  The model is a recursive-descent
evaluator for that arithmetic fragment (numbers, unary sign, `+ - * /`,
parentheses) over the shared `JsNum` double semantics, overflow
included. -/

/-- Tokens of the arithmetic fragment. -/
inductive Tok
  | num (q : JQ)
  | plus
  | minus
  | star
  | slash
  | lparen
  | rparen
deriving DecidableEq, Repr

/-- Tokenizer (fuel-based; fuel `l.length` suffices since every step
consumes at least one character). -/
def tokenizeAux : Nat → List Char → Except Unit (List Tok)
  | 0, [] => .ok []
  | 0, _ :: _ => .error ()
  | fuel+1, l =>
    match l with
    | [] => .ok []
    | c :: rest =>
      if isWhitespaceCh c then tokenizeAux fuel rest
      else if c == '+' then do pure (Tok.plus :: (← tokenizeAux fuel rest))
      else if c == '-' then do pure (Tok.minus :: (← tokenizeAux fuel rest))
      else if c == '*' then do pure (Tok.star :: (← tokenizeAux fuel rest))
      else if c == '/' then do pure (Tok.slash :: (← tokenizeAux fuel rest))
      else if c == '(' then do pure (Tok.lparen :: (← tokenizeAux fuel rest))
      else if c == ')' then do pure (Tok.rparen :: (← tokenizeAux fuel rest))
      else if isDigitCh c then
        let ds := (c :: rest).takeWhile isDigitCh
        let r1 := (c :: rest).dropWhile isDigitCh
        let fsR :=
          match r1 with
          | '.' :: r2 => (r2.takeWhile isDigitCh, r2.dropWhile isDigitCh)
          | _ => ([], r1)
        let q : JQ := JQ.add ⟨(digitsToNat ds : Int), 1⟩
                             ⟨(digitsToNat fsR.1 : Int), 10 ^ fsR.1.length⟩
        do pure (Tok.num q :: (← tokenizeAux fuel fsR.2))
      else .error ()

def tokenize (s : String) : Except Unit (List Tok) :=
  tokenizeAux s.data.length s.data

mutual

/-- Primary: number, signed primary, or parenthesized expression. -/
def evalAtom : Nat → List Tok → Except Unit (JsNum × List Tok)
  | 0, _ => .error ()
  | fuel+1, toks =>
    match toks with
    | Tok.num q :: rest => .ok (JsNum.ofRat q, rest)
    | Tok.minus :: rest => do
      let r ← evalAtom fuel rest
      .ok (r.1.negate, r.2)
    | Tok.plus :: rest => evalAtom fuel rest
    | Tok.lparen :: rest => do
      let r ← evalSum fuel rest
      match r.2 with
      | Tok.rparen :: r2 => .ok (r.1, r2)
      | _ => .error ()
    | _ => .error ()

/-- `* /` level. -/
def evalProd : Nat → List Tok → Except Unit (JsNum × List Tok)
  | 0, _ => .error ()
  | fuel+1, toks => do
    let first ← evalAtom fuel toks
    evalProdLoop fuel first.1 first.2

def evalProdLoop : Nat → JsNum → List Tok → Except Unit (JsNum × List Tok)
  | 0, _, _ => .error ()
  | fuel+1, acc, toks =>
    match toks with
    | Tok.star :: rest => do
      let r ← evalAtom fuel rest
      evalProdLoop fuel (acc.mulN r.1) r.2
    | Tok.slash :: rest => do
      let r ← evalAtom fuel rest
      evalProdLoop fuel (acc.divN r.1) r.2
    | _ => .ok (acc, toks)

/-- `+ -` level. -/
def evalSum : Nat → List Tok → Except Unit (JsNum × List Tok)
  | 0, _ => .error ()
  | fuel+1, toks => do
    let first ← evalProd fuel toks
    evalSumLoop fuel first.1 first.2

def evalSumLoop : Nat → JsNum → List Tok → Except Unit (JsNum × List Tok)
  | 0, _, _ => .error ()
  | fuel+1, acc, toks =>
    match toks with
    | Tok.plus :: rest => do
      let r ← evalProd fuel rest
      evalSumLoop fuel (acc.addN r.1) r.2
    | Tok.minus :: rest => do
      let r ← evalProd fuel rest
      evalSumLoop fuel (acc.subN r.1) r.2
    | _ => .ok (acc, toks)

end

/-- The modelled mathjs `evaluate`: tokenize, parse a full expression,
require all tokens consumed. -/
def mathjsEvaluate (s : String) : Except Unit JsNum := do
  let toks ← tokenize s
  let r ← evalSum (2 * toks.length + 2) toks
  if r.2.isEmpty then .ok r.1 else .error ()

/-- `expression.replace(/\s*=\s*$/, '').trim()` from
`evaluateExpression`: strip one trailing `=` (with surrounding
whitespace) when present, then trim. -/
def cleanExpression (e : String) : String :=
  let rev := e.data.reverse
  let r1 := rev.dropWhile isWhitespaceCh
  let afterEq :=
    match r1 with
    | '=' :: r2 => r2.dropWhile isWhitespaceCh
    | _ => rev
  let trimmed := (((afterEq.reverse.dropWhile isWhitespaceCh).reverse.dropWhile
    isWhitespaceCh)).reverse
  String.mk trimmed

/-- `evaluateExpression(expression)`: returns the updated state and the
returned string.  The `Option String` input models the
empty/non-string guard; the `try/catch` around `evaluate` corresponds
to the `Except` result of `mathjsEvaluate`. -/
def evaluateExpression (s : CalcState) : Option String → CalcState × String
  | none => (s, "Invalid expression")
  | some expr =>
    if expr = "" then (s, "Invalid expression")
    else
      match mathjsEvaluate (cleanExpression expr) with
      | .error _ => (s, "Invalid expression")
      | .ok v =>
        match v with
        | .inf _ => (s, "Invalid result")
        | .nan => (s, "Invalid result")
        | .fin result =>
          let formatted :=
            if (zpow10 12).le result.abs || (result.abs.lt (zpow10 (-12)) && !result.isZero)
            then toExponential6 result
            else jsToString12 result
          ({ s with current := formatted, expression := expr, overwrite := true,
                    operator := none, previous := none },
           formatted)

/-! ### CalcAction sequences and reachability -/

/-- One user-level operation of the state machine, with valid
arguments (a digit `0`–`9`, one of the four operators, an arbitrary
expression string or a non-string for `evaluateExpression`). -/
inductive CalcAction
  | digit (d : Fin 10)
  | dot
  | setOp (op : Op)
  | sign
  | percent
  | clearA
  | clearE
  | comp
  | evalExpr (e : Option String)
deriving DecidableEq, Repr

def applyAction : CalcAction → CalcState → CalcState
  | .digit d, s => inputDigit d s
  | .dot, s => inputDot s
  | .setOp op, s => setOperator op s
  | .sign, s => toggleSign s
  | .percent, s => inputPercent s
  | .clearA, s => clearAll s
  | .clearE, s => clearEntry s
  | .comp, s => compute s
  | .evalExpr e, s => (evaluateExpression s e).1

def applyActs (acts : List CalcAction) (s : CalcState) : CalcState :=
  acts.foldl (fun t a => applyAction a t) s

/-- States reachable from the initial zero state through the
operations of the state machine. -/
inductive Reachable : CalcState → Prop
  | init : Reachable resetState
  | step (a : CalcAction) {s : CalcState} : Reachable s → Reachable (applyAction a s)

/-! ### OCR history — `OCRProcessor.addToHistory` -/

/-- A history entry `{ expression, result, timestamp }`. -/
structure HistoryEntry where
  expression : String
  result : Option String
  timestamp : String
deriving DecidableEq, Repr

/-- `maxHistorySize` from the OCR module. -/
def maxHistorySize : Nat := 3

/-- The filter-then-unshift step of `addToHistory`: remove any entry
with the same expression, then prepend the new entry. -/
def historyInsert (entry : HistoryEntry) (h : List HistoryEntry) : List HistoryEntry :=
  entry :: h.filter (fun e2 => e2.expression != entry.expression)

/-- `addToHistory(expression, result = null)`.  The wall-clock ISO
timestamp is passed in explicitly (`now`).  Remove any entry with the
same expression, prepend the new entry, truncate to capacity
(`slice(0, maxHistorySize)` when the length exceeds it). -/
def addToHistory (now : String) (expression : String) (result : Option String)
    (ocrHistory : List HistoryEntry) : List HistoryEntry :=
  if maxHistorySize < (historyInsert ⟨expression, result, now⟩ ocrHistory).length
  then (historyInsert ⟨expression, result, now⟩ ocrHistory).take maxHistorySize
  else historyInsert ⟨expression, result, now⟩ ocrHistory

/-- Fold a list of `(now, expression, result)` insertions into an
initially empty history. -/
def runInserts (l : List (String × String × Option String)) : List HistoryEntry :=
  l.foldl (fun h x => addToHistory x.1 x.2.1 x.2.2 h) []

/-! ### Specification predicates -/

/-- The display-string pattern `^-?\d*\.?\d*$` of the spec's `current`
invariant: optional minus, digits, optional dot, digits. -/
def numTail : List Char → Bool
  | [] => true
  | c :: rest => if c = '.' then rest.all isDigitCh else isDigitCh c && numTail rest

/-- Full-match test for `^-?\d*\.?\d*$`. -/
def matchesNumRegexL : List Char → Bool
  | [] => true
  | c :: rest => if c = '-' then numTail rest else numTail (c :: rest)

def matchesNumRegex (s : String) : Bool := matchesNumRegexL s.data

/-- The `current` invariant exactly as the spec states it: the plain
decimal pattern, or one of the two sentinel strings. -/
def specCurrentInvariant (s : String) : Prop :=
  matchesNumRegex s = true ∨ s = "Error" ∨ s = "Cannot divide by zero"

/-- ASCII letter test. -/
def isLetterCh (c : Char) : Bool :=
  (65 ≤ c.toNat && c.toNat ≤ 90) || (97 ≤ c.toNat && c.toNat ≤ 122)

/-- The invariant the code actually maintains: the plain decimal
pattern, or a string containing at least one letter (this covers the
sentinel strings `"Error"` / `"Cannot divide by zero"`, the overflow
displays `"Infinity"` / `"-Infinity"` / `"NaN"`, exponential-notation
results, and every state obtained from one of those by further
sign/dot/digit editing). -/
def currentInvariant (s : String) : Prop :=
  matchesNumRegex s = true ∨ s.data.any isLetterCh = true

/-- No two adjacent characters both satisfy `p`. -/
def noAdjPair (p : Char → Bool) : List Char → Bool
  | c1 :: c2 :: rest => !(p c1 && p c2) && noAdjPair p (c2 :: rest)
  | _ => true

/-- The glossary's "sanitized expression": only whitelisted characters,
balanced parentheses (running count never negative, ending at zero),
no two adjacent operator characters, no two adjacent dots, and at
least one digit. -/
def sanitizedGood (s : String) : Prop :=
  s.data.all isAllowedCh = true ∧
  hasBalancedParentheses s.data = true ∧
  noAdjPair isOpCh s.data = true ∧
  noAdjPair isDotCh s.data = true ∧
  s.data.any isDigitCh = true

/-- The display character set `{digits, ×, ÷, +, -, (, )}` claimed for
`normalizeForDisplay` output. -/
def isDisplayCh (c : Char) : Bool :=
  isDigitCh c || c == '×' || c == '÷' || c == '+' || c == '-' || c == '(' || c == ')'

/-- The display character set extended with the decimal dot, which
sanitized expressions may legitimately contain. -/
def isDisplayChOrDot (c : Char) : Bool := isDisplayCh c || c == '.'

/-! ### Sanitizer lemmas -/

theorem opRunReplacement_eq (c : Char) (run : List Char) : opRunReplacement c run = c := by
  unfold opRunReplacement
  split
  · next hall =>
    have hc : (c == '-') = true := List.all_eq_true.mp hall c (by simp)
    have : c = '-' := by simpa using hc
    rw [this]
  · rfl

theorem dotRunReplacement_eq (c : Char) (run : List Char) (h : isDotCh c = true) :
    dotRunReplacement c run = c := by
  have : c = '.' := by simpa [isDotCh] using h
  rw [this]; rfl

theorem collapseRunsAux_nil (p : Char → Bool) (emit : Char → List Char → Char) (fuel : Nat) :
    collapseRunsAux p emit fuel [] = [] := by
  cases fuel <;> rfl

theorem collapseRunsAux_cons (p : Char → Bool) (emit : Char → List Char → Char)
    (hemit : ∀ c run, p c = true → emit c run = c) (fuel : Nat) (c : Char) (rest : List Char) :
    collapseRunsAux p emit (fuel + 1) (c :: rest) =
      c :: (if p c then collapseRunsAux p emit fuel (rest.dropWhile p)
            else collapseRunsAux p emit fuel rest) := by
  by_cases h : p c
  · simp [collapseRunsAux, h, hemit c _ h]
  · simp [collapseRunsAux, h]

theorem collapseRunsAux_sublist (p : Char → Bool) (emit : Char → List Char → Char)
    (hemit : ∀ c run, p c = true → emit c run = c) :
    ∀ fuel l, List.Sublist (collapseRunsAux p emit fuel l) l := by
  intro fuel
  induction fuel with
  | zero =>
    intro l
    cases l <;> simp [collapseRunsAux]
  | succ f ih =>
    intro l
    cases l with
    | nil => simp [collapseRunsAux_nil]
    | cons c rest =>
      rw [collapseRunsAux_cons p emit hemit]
      by_cases h : p c
      · rw [if_pos h]
        exact List.Sublist.cons₂ c ((ih _).trans (List.dropWhile_sublist p))
      · rw [if_neg h]
        exact List.Sublist.cons₂ c (ih rest)

theorem bool_not_true {b : Bool} (h : (!b) = true) : b = false := by
  cases b
  · rfl
  · simp at h

theorem noAdjPair_tail (q : Char → Bool) (c : Char) (l : List Char)
    (h : noAdjPair q (c :: l) = true) : noAdjPair q l = true := by
  cases l with
  | nil => rfl
  | cons c2 r =>
    have he : noAdjPair q (c :: c2 :: r) = (!(q c && q c2) && noAdjPair q (c2 :: r)) := rfl
    rw [he, Bool.and_eq_true] at h
    exact h.2

theorem noAdjPair_tail_any (q : Char → Bool) (l : List Char)
    (h : noAdjPair q l = true) : noAdjPair q l.tail = true := by
  cases l with
  | nil => exact h
  | cons c r => exact noAdjPair_tail q c r h

theorem noAdjPair_cons_of_head (q : Char → Bool) (c : Char) (l : List Char)
    (hhead : ∀ x, l.head? = some x → (q c && q x) = false)
    (htail : noAdjPair q l = true) : noAdjPair q (c :: l) = true := by
  cases l with
  | nil => rfl
  | cons x xs =>
    have he : noAdjPair q (c :: x :: xs) = (!(q c && q x) && noAdjPair q (x :: xs)) := rfl
    rw [he, hhead x rfl, htail]
    rfl

theorem noAdjPair_dropWhile (q p : Char → Bool) (l : List Char)
    (h : noAdjPair q l = true) : noAdjPair q (l.dropWhile p) = true := by
  induction l with
  | nil => simpa using h
  | cons c r ih =>
    rw [List.dropWhile_cons]
    by_cases hp : p c
    · rw [if_pos hp]
      exact ih (noAdjPair_tail q c r h)
    · rw [if_neg hp]
      exact h

theorem noAdjPair_dropLast (q : Char → Bool) (l : List Char)
    (h : noAdjPair q l = true) : noAdjPair q l.dropLast = true := by
  induction l with
  | nil => rfl
  | cons c1 t ih =>
    cases t with
    | nil => rfl
    | cons c2 r =>
      have hd : (c1 :: c2 :: r).dropLast = c1 :: (c2 :: r).dropLast := by simp
      rw [hd]
      have hpair : (q c1 && q c2) = false := by
        apply bool_not_true
        have he : noAdjPair q (c1 :: c2 :: r) = (!(q c1 && q c2) && noAdjPair q (c2 :: r)) := rfl
        rw [he, Bool.and_eq_true] at h
        exact h.1
      apply noAdjPair_cons_of_head
      · intro x hx
        cases r with
        | nil => simp at hx
        | cons c3 rr =>
          have hd2 : (c2 :: c3 :: rr).dropLast = c2 :: (c3 :: rr).dropLast := by simp
          rw [hd2] at hx
          simp at hx
          rw [← hx]
          exact hpair
      · exact ih (noAdjPair_tail q c1 (c2 :: r) h)

theorem head_of_dropWhile_false (p : Char → Bool) (l : List Char) (c : Char)
    (h : (l.dropWhile p).head? = some c) : p c = false := by
  have := List.head?_dropWhile_not p l
  rw [h] at this
  simpa using this

theorem collapseRunsAux_head (p : Char → Bool) (emit : Char → List Char → Char)
    (hemit : ∀ c run, p c = true → emit c run = c) (fuel : Nat) (c : Char) (rest : List Char) :
    (collapseRunsAux p emit (fuel + 1) (c :: rest)).head? = some c := by
  rw [collapseRunsAux_cons p emit hemit]
  rfl

theorem noAdjPair_collapseRunsAux (p : Char → Bool) (emit : Char → List Char → Char)
    (hemit : ∀ c run, p c = true → emit c run = c) :
    ∀ fuel l, l.length ≤ fuel → noAdjPair p (collapseRunsAux p emit fuel l) = true := by
  intro fuel
  induction fuel with
  | zero =>
    intro l hl
    have : l = [] := List.length_eq_zero.mp (Nat.le_zero.mp hl)
    subst this
    rfl
  | succ f ih =>
    intro l hl
    cases l with
    | nil => rw [collapseRunsAux_nil]; rfl
    | cons c rest =>
      rw [collapseRunsAux_cons p emit hemit]
      have hrest : rest.length ≤ f := by simpa using hl
      by_cases h : p c
      · rw [if_pos h]
        have hlen : (rest.dropWhile p).length ≤ f :=
          le_trans (List.dropWhile_sublist p).length_le hrest
        apply noAdjPair_cons_of_head
        · intro x hx
          cases hdw : rest.dropWhile p with
          | nil => rw [hdw, collapseRunsAux_nil] at hx; simp at hx
          | cons y ys =>
            cases f with
            | zero =>
              rw [hdw] at hlen
              simp at hlen
            | succ f2 =>
              rw [hdw, collapseRunsAux_head p emit hemit] at hx
              have hy : x = y := by simpa using hx.symm
              have hpy : p y = false := head_of_dropWhile_false p rest y (by rw [hdw]; rfl)
              rw [hy, hpy]
              simp
        · exact ih _ hlen
      · rw [if_neg h]
        have hc : p c = false := Bool.eq_false_iff.mpr h
        apply noAdjPair_cons_of_head
        · intro x _
          rw [hc]
          simp
        · exact ih _ hrest

theorem noAdjPair_collapseRunsAux_preserve (p : Char → Bool) (emit : Char → List Char → Char)
    (q : Char → Bool) (hemit : ∀ c run, p c = true → emit c run = c)
    (hdisj : ∀ c, p c = true → q c = false) :
    ∀ fuel l, l.length ≤ fuel → noAdjPair q l = true →
      noAdjPair q (collapseRunsAux p emit fuel l) = true := by
  intro fuel
  induction fuel with
  | zero =>
    intro l hl _
    have : l = [] := List.length_eq_zero.mp (Nat.le_zero.mp hl)
    subst this
    rfl
  | succ f ih =>
    intro l hl hq
    cases l with
    | nil => rw [collapseRunsAux_nil]; rfl
    | cons c rest =>
      rw [collapseRunsAux_cons p emit hemit]
      have hrest : rest.length ≤ f := by simpa using hl
      have hqrest : noAdjPair q rest = true := noAdjPair_tail q c rest hq
      by_cases h : p c
      · rw [if_pos h]
        apply noAdjPair_cons_of_head
        · intro x _
          rw [hdisj c h]
          simp
        · exact ih _ (le_trans (List.dropWhile_sublist p).length_le hrest)
            (noAdjPair_dropWhile q p rest hqrest)
      · rw [if_neg h]
        apply noAdjPair_cons_of_head
        · intro x hx
          cases rest with
          | nil => rw [collapseRunsAux_nil] at hx; simp at hx
          | cons y ys =>
            cases f with
            | zero => simp at hrest
            | succ f2 =>
              rw [collapseRunsAux_head p emit hemit] at hx
              have hy : x = y := by simpa using hx.symm
              have hpair : (q c && q y) = false := by
                apply bool_not_true
                have he : noAdjPair q (c :: y :: ys) = (!(q c && q y) && noAdjPair q (y :: ys)) :=
                  rfl
                rw [he, Bool.and_eq_true] at hq
                exact hq.1
              rw [hy]
              exact hpair
        · exact ih _ hrest hqrest

theorem sublist_all {l2 l : List Char} (pr : Char → Bool) (h : List.Sublist l2 l)
    (ha : l.all pr = true) : l2.all pr = true := by
  simp only [List.all_eq_true] at *
  exact fun x hx => ha x (h.mem hx)

theorem stripLeadingOp_sublist (l : List Char) : List.Sublist (stripLeadingOp l) l := by
  unfold stripLeadingOp
  by_cases h : headIsStrippable l = true
  · rw [if_pos h]
    exact List.tail_sublist l
  · rw [if_neg h]

theorem stripTrailingOp_sublist (l : List Char) : List.Sublist (stripTrailingOp l) l := by
  unfold stripTrailingOp
  by_cases h : lastIsOp l = true
  · rw [if_pos h]
    exact List.dropLast_sublist l
  · rw [if_neg h]

theorem noAdjPair_stripLeadingOp (q : Char → Bool) (l : List Char)
    (h : noAdjPair q l = true) : noAdjPair q (stripLeadingOp l) = true := by
  unfold stripLeadingOp
  by_cases hc : headIsStrippable l = true
  · rw [if_pos hc]
    exact noAdjPair_tail_any q l h
  · rw [if_neg hc]
    exact h

theorem noAdjPair_stripTrailingOp (q : Char → Bool) (l : List Char)
    (h : noAdjPair q l = true) : noAdjPair q (stripTrailingOp l) = true := by
  unfold stripTrailingOp
  by_cases hc : lastIsOp l = true
  · rw [if_pos hc]
    exact noAdjPair_dropLast q l h
  · rw [if_neg hc]
    exact h

theorem isDotCh_not_isOpCh (c : Char) (h : isDotCh c = true) : isOpCh c = false := by
  have : c = '.' := by simpa [isDotCh] using h
  rw [this]
  rfl

theorem opRunReplacement_hemit : ∀ c run, isOpCh c = true → opRunReplacement c run = c :=
  fun c run _ => opRunReplacement_eq c run

/-- Character-set postcondition of the collapse/strip pipeline. -/
theorem sanitizeCollapse_all (l1 : List Char) (hall : l1.all isAllowedCh = true) :
    (sanitizeCollapse l1).all isAllowedCh = true := by
  unfold sanitizeCollapse
  apply sublist_all _ (stripTrailingOp_sublist _)
  apply sublist_all _ (stripLeadingOp_sublist _)
  apply sublist_all _ (collapseRunsAux_sublist _ _ dotRunReplacement_eq _ _)
  apply sublist_all _ (collapseRunsAux_sublist _ _ opRunReplacement_hemit _ _)
  exact hall

/-- No-adjacent-operators postcondition of the collapse/strip pipeline. -/
theorem sanitizeCollapse_noAdjOp (l1 : List Char) :
    noAdjPair isOpCh (sanitizeCollapse l1) = true := by
  unfold sanitizeCollapse
  apply noAdjPair_stripTrailingOp
  apply noAdjPair_stripLeadingOp
  apply noAdjPair_collapseRunsAux_preserve isDotCh dotRunReplacement isOpCh
    dotRunReplacement_eq isDotCh_not_isOpCh _ _ le_rfl
  exact noAdjPair_collapseRunsAux isOpCh opRunReplacement opRunReplacement_hemit _ _ le_rfl

/-- No-adjacent-dots postcondition of the collapse/strip pipeline. -/
theorem sanitizeCollapse_noAdjDot (l1 : List Char) :
    noAdjPair isDotCh (sanitizeCollapse l1) = true := by
  unfold sanitizeCollapse
  apply noAdjPair_stripTrailingOp
  apply noAdjPair_stripLeadingOp
  exact noAdjPair_collapseRunsAux isDotCh dotRunReplacement dotRunReplacement_eq _ _ le_rfl

/-- The full postcondition of `sanitizeExpression`: a non-empty result
is a sanitized expression in the glossary sense. -/
theorem sanitizeExpression_spec (text : Option String) :
    sanitizeExpression text = "" ∨ sanitizedGood (sanitizeExpression text) := by
  cases text with
  | none => exact Or.inl rfl
  | some t =>
    show (if t = "" then "" else _) = "" ∨ sanitizedGood (if t = "" then "" else _)
    by_cases h0 : t = ""
    · rw [if_pos h0]
      exact Or.inl rfl
    · rw [if_neg h0]
      by_cases h1 : ((sanitizeNormalize t.data).isEmpty
          || !((sanitizeNormalize t.data).all isAllowedCh)) = true
      · rw [if_pos h1]
        exact Or.inl rfl
      · rw [if_neg h1]
        have hall : (sanitizeNormalize t.data).all isAllowedCh = true := by
          have h1f : ((sanitizeNormalize t.data).isEmpty
              || !((sanitizeNormalize t.data).all isAllowedCh)) = false := Bool.eq_false_iff.mpr h1
          have := (Bool.or_eq_false_iff.mp h1f).2
          simpa using this
        unfold sanitizeFinal
        by_cases h2 : hasBalancedParentheses (sanitizeCollapse (sanitizeNormalize t.data)) = true
        · rw [if_pos h2]
          by_cases h3 : (sanitizeCollapse (sanitizeNormalize t.data)).any isDigitCh = true
          · rw [if_pos h3]
            exact Or.inr ⟨sanitizeCollapse_all _ hall, h2,
              sanitizeCollapse_noAdjOp _, sanitizeCollapse_noAdjDot _, h3⟩
          · rw [if_neg h3]
            exact Or.inl rfl
        · rw [if_neg h2]
          exact Or.inl rfl

/-! ### Claims about the sanitizer -/

/-- C5: for every input, `sanitizeExpression` returns either the empty
string or a sanitized expression in the glossary sense: only the
characters `0-9 + - * / ( ) .`, balanced parentheses (running count
never negative, ending at zero), no two adjacent operator characters,
no two adjacent dots, and at least one digit. -/
theorem c5_sanitize_postcondition (text : Option String) :
    sanitizeExpression text = "" ∨ sanitizedGood (sanitizeExpression text) :=
  sanitizeExpression_spec text

/-- C9: the five concrete sanitizer examples from the spec. -/
theorem c9_sanitize_examples :
    sanitizeExpression (some "12 × 3") = "12*3" ∧
    sanitizeExpression (some "1--2") = "1-2" ∧
    sanitizeExpression (some "(2+3") = "" ∧
    sanitizeExpression (some "abc") = "" ∧
    sanitizeExpression (some "2,5") = "2.5" := by
  decide

theorem displayChar_of_allowed (c : Char) (h : isAllowedCh c = true) :
    isDisplayChOrDot (if c == '*' then '×' else if c == '/' then '÷' else c) = true := by
  by_cases h1 : (c == '*') = true
  · rw [if_pos h1]
    rfl
  · rw [if_neg h1]
    by_cases h2 : (c == '/') = true
    · rw [if_pos h2]
      rfl
    · rw [if_neg h2]
      simp only [isAllowedCh, isOpCh, Bool.or_eq_true, beq_iff_eq] at h
      simp only [isDisplayChOrDot, isDisplayCh, Bool.or_eq_true, beq_iff_eq]
      simp only [beq_iff_eq] at h1 h2
      tauto

/-- C6 (counterexample): `sanitize("2,5") = "2.5"` survives
sanitization, yet its display form contains the dot, which is outside
the claimed character set `{digits, ×, ÷, +, -, (, )}`. -/
theorem c6_counterexample :
    sanitizeExpression (some "2,5") ≠ "" ∧
    (normalizeForDisplay (sanitizeExpression (some "2,5"))).data.all isDisplayCh = false := by
  decide

/-- C6 (amended): for every raw input on which the sanitizer returns a
non-empty result, `normalizeForDisplay` of it contains only characters
in `{digits, ×, ÷, +, -, (, )}` extended with the decimal dot. -/
theorem c6_normalize_display_amended (raw : Option String)
    (h : sanitizeExpression raw ≠ "") :
    (normalizeForDisplay (sanitizeExpression raw)).data.all isDisplayChOrDot = true := by
  rcases sanitizeExpression_spec raw with he | hg
  · exact absurd he h
  · unfold normalizeForDisplay
    rw [if_neg h]
    show ((sanitizeExpression raw).data.map _).all _ = true
    have hchars := hg.1
    rw [List.all_eq_true] at hchars ⊢
    intro x hx
    rw [List.mem_map] at hx
    obtain ⟨c, hc, rfl⟩ := hx
    exact displayChar_of_allowed c (hchars c hc)

theorem c6_witness :
    (normalizeForDisplay (sanitizeExpression (some "2,5"))).data.all isDisplayChOrDot = true :=
  c6_normalize_display_amended (some "2,5") (by decide)

/-! ### Claims about evaluateExpression -/

/-- C2 (counterexample): an input evaluating to a non-finite value
(`"1/0"`, which mathjs evaluates to `Infinity`) makes
`evaluateExpression` return `"Invalid result"`, not
`"Invalid expression"` as claimed. -/
theorem c2_counterexample :
    (evaluateExpression resetState (some "1/0")).2 = "Invalid result" ∧
    (evaluateExpression resetState (some "1/0")).2 ≠ "Invalid expression" := by
  decide

/-- C2 (amended): `evaluateExpression` never throws (it is a total
function); it returns `"Invalid expression"` and leaves the state
unchanged when the input is missing/non-string, empty, or fails to
parse, and it returns `"Invalid result"` (and leaves the state
unchanged) when the input evaluates to a non-finite value. -/
theorem c2_evaluate_errors_amended (s : CalcState) (input : Option String) :
    ((input = none ∨ input = some "" ∨
        ∃ e, input = some e ∧ e ≠ "" ∧ mathjsEvaluate (cleanExpression e) = .error ()) →
      (evaluateExpression s input).2 = "Invalid expression" ∧
      (evaluateExpression s input).1 = s) ∧
    (∀ e v, input = some e → e ≠ "" → mathjsEvaluate (cleanExpression e) = .ok v →
      v.isFinite = false →
      (evaluateExpression s input).2 = "Invalid result" ∧
      (evaluateExpression s input).1 = s) := by
  constructor
  · intro h
    rcases h with h | h | ⟨e, he, hne, herr⟩
    · subst h
      exact ⟨rfl, rfl⟩
    · subst h
      exact ⟨rfl, rfl⟩
    · subst he
      have he2 : evaluateExpression s (some e) = (s, "Invalid expression") := by
        unfold evaluateExpression
        dsimp only
        rw [if_neg hne, herr]
      rw [he2]
      exact ⟨rfl, rfl⟩
  · intro e v he hne hok hfin
    subst he
    cases v with
    | fin q => simp [JsNum.isFinite] at hfin
    | inf b =>
      have he2 : evaluateExpression s (some e) = (s, "Invalid result") := by
        unfold evaluateExpression
        dsimp only
        rw [if_neg hne, hok]
      rw [he2]
      exact ⟨rfl, rfl⟩
    | nan =>
      have he2 : evaluateExpression s (some e) = (s, "Invalid result") := by
        unfold evaluateExpression
        dsimp only
        rw [if_neg hne, hok]
      rw [he2]
      exact ⟨rfl, rfl⟩

theorem c2_witness :
    (evaluateExpression resetState (some "2+")).2 = "Invalid expression" ∧
    (evaluateExpression resetState none).2 = "Invalid expression" ∧
    (evaluateExpression resetState (some "3/0")).2 = "Invalid result" :=
  ⟨((c2_evaluate_errors_amended resetState (some "2+")).1
      (Or.inr (Or.inr ⟨"2+", rfl, by decide, rfl⟩))).1,
   ((c2_evaluate_errors_amended resetState none).1 (Or.inl rfl)).1,
   ((c2_evaluate_errors_amended resetState (some "3/0")).2 "3/0" (JsNum.inf false)
      rfl (by decide) rfl rfl).1⟩

/-! ### Claims about the state machine operations -/

/-- C3: when an operator is pending and the machine is not in
overwrite mode, `setOperator` performs the implicit chained `compute`
before installing the new operator; and the button sequence
`5 + 3 × 2 =` ends with the display `"16"`. -/
theorem c3_operator_chaining (s : CalcState) (op : Op) (h1 : s.operator.isSome = true)
    (h2 : s.overwrite = false) :
    setOperator op s = installOperator op (compute s) ∧
    getCurrentDisplay (applyActs
      [.digit 5, .setOp .add, .digit 3, .setOp .mul, .digit 2, .comp] resetState) = "16" := by
  refine ⟨?_, by decide⟩
  unfold setOperator
  rw [h1, h2]
  simp

theorem c3_witness :
    setOperator .mul (applyActs [.digit 5, .setOp .add, .digit 3] resetState) =
      installOperator .mul (compute (applyActs [.digit 5, .setOp .add, .digit 3] resetState)) ∧
    getCurrentDisplay (applyActs
      [.digit 5, .setOp .add, .digit 3, .setOp .mul, .digit 2, .comp] resetState) = "16" :=
  c3_operator_chaining _ .mul (by decide) (by decide)

theorem JsNum.eqZero_not_nan (v : JsNum) (h : v.eqZero = true) : v.isNaN = false := by
  cases v with
  | fin q => rfl
  | inf b => exact absurd h (by simp [JsNum.eqZero])
  | nan => exact absurd h (by simp [JsNum.eqZero])

/-- C4 (counterexample): after `10 ÷ 0 =` the sentinel
`"Cannot divide by zero"` sits in `current`; pressing `÷` copies it
into `previous` (non-null), and `0`, `=` then reach `compute` in a
state with a pending `÷`, a non-null previous operand and a current
operand parsing to zero — but `compute` hits the NaN guard and sets
`"Error"`, keeping `operator` and `previous`, instead of the claimed
sentinel-and-clear behaviour. -/
theorem c4_counterexample :
    (applyActs [.digit 1, .digit 0, .setOp .div, .digit 0, .comp, .setOp .div, .digit 0]
        resetState).operator = some Op.div ∧
    (applyActs [.digit 1, .digit 0, .setOp .div, .digit 0, .comp, .setOp .div, .digit 0]
        resetState).previous = some "Cannot divide by zero" ∧
    (parseFloat (applyActs [.digit 1, .digit 0, .setOp .div, .digit 0, .comp, .setOp .div,
        .digit 0] resetState).current).eqZero = true ∧
    (compute (applyActs [.digit 1, .digit 0, .setOp .div, .digit 0, .comp, .setOp .div,
        .digit 0] resetState)).current = "Error" ∧
    (compute (applyActs [.digit 1, .digit 0, .setOp .div, .digit 0, .comp, .setOp .div,
        .digit 0] resetState)).operator = some Op.div ∧
    (compute (applyActs [.digit 1, .digit 0, .setOp .div, .digit 0, .comp, .setOp .div,
        .digit 0] resetState)).previous = some "Cannot divide by zero" := by
  decide

/-- C4 (amended): with a pending `÷`, a previous operand that parses
as a number (is not NaN) and a current operand parsing to zero,
`compute` sets the sentinel `"Cannot divide by zero"`, clears
`operator`/`previous`, changes nothing else (no numeric result), and a
subsequent `clearAll` restores the zero state. -/
theorem c4_divide_by_zero (s : CalcState) (p : String)
    (h1 : s.operator = some Op.div) (h2 : s.previous = some p)
    (h3 : (parseFloat p).isNaN = false)
    (h4 : (parseFloat s.current).eqZero = true) :
    compute s = { s with
      current := "Cannot divide by zero"
      operator := none
      previous := none } ∧
    getCurrentDisplay (compute s) = "Cannot divide by zero" ∧
    clearAll (compute s) = resetState := by
  have hnn : (parseFloat s.current).isNaN = false := JsNum.eqZero_not_nan _ h4
  have hc : compute s = { s with
      current := "Cannot divide by zero"
      operator := none
      previous := none } := by
    unfold compute
    simp [h1, h2, h3, h4, hnn]
  exact ⟨hc, by rw [getCurrentDisplay, hc], rfl⟩

theorem c4_witness :
    compute (applyActs [.digit 1, .digit 0, .setOp .div, .digit 0] resetState) =
      { applyActs [.digit 1, .digit 0, .setOp .div, .digit 0] resetState with
          current := "Cannot divide by zero"
          operator := none
          previous := none } ∧
    getCurrentDisplay (compute (applyActs [.digit 1, .digit 0, .setOp .div, .digit 0]
      resetState)) = "Cannot divide by zero" ∧
    clearAll (compute (applyActs [.digit 1, .digit 0, .setOp .div, .digit 0] resetState)) =
      resetState :=
  c4_divide_by_zero _ "10" (by decide) (by decide) (by decide) (by decide)

/-- C7 (counterexample): in overwrite mode (here: right after an
operator) a 12-character `current` is replaced, not left unchanged, by
`inputDigit`. -/
theorem c7_counterexample :
    (applyActs (List.replicate 12 (.digit 9) ++ [.setOp .add]) resetState).current.length
      = 12 ∧
    (inputDigit 5 (applyActs (List.replicate 12 (.digit 9) ++ [.setOp .add])
        resetState)).current ≠
      (applyActs (List.replicate 12 (.digit 9) ++ [.setOp .add]) resetState).current := by
  decide

/-- C7 (amended): when `overwrite` is clear and `current` already has
at least 12 characters, `inputDigit` with a valid digit is a complete
no-op: the whole state, in particular `current`, is unchanged. -/
theorem c7_length_cap_amended (s : CalcState) (d : Fin 10) (h1 : s.overwrite = false)
    (h2 : 12 ≤ s.current.length) : inputDigit d s = s := by
  unfold inputDigit
  rw [h1]
  simp [h2]

theorem c7_witness :
    inputDigit 5 (applyActs (List.replicate 12 (.digit 9)) resetState) =
      applyActs (List.replicate 12 (.digit 9)) resetState :=
  c7_length_cap_amended _ 5 (by decide) (by decide)

/-- C10: the 12-character cap is enforced only by `inputDigit`
appends — `inputDot` extends a dotless 12-character `current` to 13
characters, and `toggleSign` prepends `-` to any positive `current`
regardless of its length. -/
theorem c10_cap_only_inputDigit :
    (∀ s : CalcState, s.overwrite = false → s.current.data.contains '.' = false →
      s.current.length = 12 → (inputDot s).current.length = 13) ∧
    (∀ s : CalcState, s.current ≠ "0" → s.current.data.head? ≠ some '-' →
      (toggleSign s).current = String.mk ('-' :: s.current.data)) := by
  constructor
  · intro s h1 h2 h3
    unfold inputDot
    rw [h1]
    simp only [Bool.false_eq_true, if_false, h2]
    show (String.mk (s.current.data ++ ['.'])).length = 13
    have hlen : s.current.data.length = 12 := h3
    simp [String.length, hlen]
  · intro s h1 h2
    unfold toggleSign
    rw [if_neg h1, if_neg h2]

theorem c10_witness :
    (inputDot (applyActs (List.replicate 12 (.digit 9)) resetState)).current.length = 13 ∧
    (toggleSign (applyActs [.digit 5] resetState)).current =
      String.mk ('-' :: (applyActs [.digit 5] resetState).current.data) :=
  ⟨c10_cap_only_inputDigit.1 _ (by decide) (by decide) (by decide),
   c10_cap_only_inputDigit.2 _ (by decide) (by decide)⟩

/-! ### History lemmas and claim C8 -/

theorem addToHistory_length_le (now e : String) (r : Option String) (h : List HistoryEntry) :
    (addToHistory now e r h).length ≤ maxHistorySize := by
  unfold addToHistory
  by_cases hl : maxHistorySize < (historyInsert ⟨e, r, now⟩ h).length
  · rw [if_pos hl]
    simp [List.length_take]
  · rw [if_neg hl]
    omega

theorem historyInsert_map_nodup (entry : HistoryEntry) (h : List HistoryEntry)
    (hnd : (h.map HistoryEntry.expression).Nodup) :
    ((historyInsert entry h).map HistoryEntry.expression).Nodup := by
  unfold historyInsert
  rw [List.map_cons, List.nodup_cons]
  constructor
  · intro hmem
    rw [List.mem_map] at hmem
    obtain ⟨x, hx, hxe⟩ := hmem
    rw [List.mem_filter] at hx
    have := hx.2
    rw [hxe] at this
    simp at this
  · exact hnd.sublist ((List.filter_sublist _).map HistoryEntry.expression)

theorem addToHistory_map_nodup (now e : String) (r : Option String) (h : List HistoryEntry)
    (hnd : (h.map HistoryEntry.expression).Nodup) :
    ((addToHistory now e r h).map HistoryEntry.expression).Nodup := by
  unfold addToHistory
  by_cases hl : maxHistorySize < (historyInsert ⟨e, r, now⟩ h).length
  · rw [if_pos hl]
    exact (historyInsert_map_nodup _ h hnd).sublist
      ((List.take_sublist _ _).map HistoryEntry.expression)
  · rw [if_neg hl]
    exact historyInsert_map_nodup _ h hnd

theorem runInserts_aux (l : List (String × String × Option String))
    (acc : List HistoryEntry) (hlen : acc.length ≤ maxHistorySize)
    (hnd : (acc.map HistoryEntry.expression).Nodup) :
    (l.foldl (fun h x => addToHistory x.1 x.2.1 x.2.2 h) acc).length ≤ maxHistorySize ∧
    ((l.foldl (fun h x => addToHistory x.1 x.2.1 x.2.2 h)
        acc).map HistoryEntry.expression).Nodup := by
  induction l generalizing acc with
  | nil => exact ⟨hlen, hnd⟩
  | cons x rest ih =>
    exact ih (addToHistory x.1 x.2.1 x.2.2 acc) (addToHistory_length_le _ _ _ _)
      (addToHistory_map_nodup _ _ _ _ hnd)

theorem filter_expr_length (e : String) (h : List HistoryEntry) :
    (h.filter (fun e2 => e2.expression != e)).length =
      ((h.map HistoryEntry.expression).filter (fun s => s != e)).length := by
  induction h with
  | nil => rfl
  | cons x rest ih =>
    by_cases hx : (x.expression != e) = true
    · rw [List.filter_cons, if_pos hx, List.map_cons, List.filter_cons, if_pos hx]
      simp [ih]
    · rw [List.filter_cons, if_neg hx, List.map_cons, List.filter_cons, if_neg hx]
      exact ih

theorem addToHistory_dup (now e : String) (r : Option String) (h : List HistoryEntry)
    (hnd : (h.map HistoryEntry.expression).Nodup)
    (hmem : e ∈ h.map HistoryEntry.expression) (hlen : h.length ≤ maxHistorySize) :
    (addToHistory now e r h).length = h.length ∧
    (addToHistory now e r h).head? = some ⟨e, r, now⟩ := by
  have hfl : (h.filter (fun e2 => e2.expression != e)).length = h.length - 1 := by
    rw [filter_expr_length]
    rw [← hnd.erase_eq_filter e]
    rw [List.length_erase_of_mem hmem]
    simp
  have hpos : 1 ≤ h.length := by
    cases h with
    | nil => simp at hmem
    | cons a b => simp
  have hil : (historyInsert ⟨e, r, now⟩ h).length = h.length := by
    unfold historyInsert
    rw [List.length_cons, hfl]
    omega
  have hno : ¬maxHistorySize < (historyInsert ⟨e, r, now⟩ h).length := by
    rw [hil]
    omega
  unfold addToHistory
  rw [if_neg hno]
  exact ⟨hil, rfl⟩

/-- C8: histories built by `addToHistory` hold at most 3 entries with
pairwise distinct expressions; inserting an expression already present
keeps the length unchanged and moves the entry to the front
(most-recent-first); and inserting four distinct expressions retains
exactly the three most recent, most recent first. -/
theorem c8_history_mru :
    (∀ l : List (String × String × Option String),
      (runInserts l).length ≤ maxHistorySize ∧
      ((runInserts l).map HistoryEntry.expression).Nodup) ∧
    (∀ (now e : String) (r : Option String) (h : List HistoryEntry),
      (h.map HistoryEntry.expression).Nodup → e ∈ h.map HistoryEntry.expression →
      h.length ≤ maxHistorySize →
      (addToHistory now e r h).length = h.length ∧
      (addToHistory now e r h).head? = some ⟨e, r, now⟩) ∧
    runInserts [("t1", "a", none), ("t2", "b", none), ("t3", "c", none), ("t4", "d", none)] =
      [⟨"d", none, "t4"⟩, ⟨"c", none, "t3"⟩, ⟨"b", none, "t2"⟩] := by
  refine ⟨fun l => runInserts_aux l [] (by decide) (by decide), ?_, by decide⟩
  exact fun now e r h hnd hmem hlen => addToHistory_dup now e r h hnd hmem hlen

theorem c8_witness :
    (addToHistory "t3" "a" none
        [⟨"a", none, "t1"⟩, ⟨"b", none, "t2"⟩]).length = 2 ∧
    (addToHistory "t3" "a" none
        [⟨"a", none, "t1"⟩, ⟨"b", none, "t2"⟩]).head? = some ⟨"a", none, "t3"⟩ :=
  c8_history_mru.2.1 "t3" "a" none [⟨"a", none, "t1"⟩, ⟨"b", none, "t2"⟩]
    (by decide) (by decide) (by decide)

/-! ### Display-string shape lemmas for the `current` invariant (C1) -/

theorem numTail_cons (c : Char) (rest : List Char) :
    numTail (c :: rest) =
      if c = '.' then rest.all isDigitCh else isDigitCh c && numTail rest := rfl

theorem matchesNumRegexL_cons (c : Char) (rest : List Char) :
    matchesNumRegexL (c :: rest) =
      if c = '-' then numTail rest else numTail (c :: rest) := rfl

theorem digitChar_digit (n : Nat) : isDigitCh (digitChar n) = true := by
  unfold digitChar
  split <;> rfl

theorem digit_ne_dot (c : Char) (h : isDigitCh c = true) : ¬(c = '.') := by
  intro he
  subst he
  exact absurd h (by decide)

theorem digit_ne_dash (c : Char) (h : isDigitCh c = true) : ¬(c = '-') := by
  intro he
  subst he
  exact absurd h (by decide)

theorem all_digits_numTail (l : List Char) (h : l.all isDigitCh = true) :
    numTail l = true := by
  induction l with
  | nil => rfl
  | cons c rest ih =>
    rw [List.all_cons, Bool.and_eq_true] at h
    rw [numTail_cons, if_neg (digit_ne_dot c h.1), h.1, ih h.2]
    rfl

theorem numTail_digits_dot_digits (l1 l2 : List Char) (h1 : l1.all isDigitCh = true)
    (h2 : l2.all isDigitCh = true) : numTail (l1 ++ '.' :: l2) = true := by
  induction l1 with
  | nil =>
    rw [List.nil_append, numTail_cons, if_pos rfl]
    exact h2
  | cons c rest ih =>
    rw [List.all_cons, Bool.and_eq_true] at h1
    rw [List.cons_append, numTail_cons, if_neg (digit_ne_dot c h1.1), h1.1, ih h1.2]
    rfl

theorem numTail_append_digit (l : List Char) (d : Char) (hd : isDigitCh d = true)
    (hl : numTail l = true) : numTail (l ++ [d]) = true := by
  induction l with
  | nil =>
    rw [List.nil_append, numTail_cons, if_neg (digit_ne_dot d hd), hd]
    rfl
  | cons c rest ih =>
    rw [List.cons_append]
    by_cases hc : c = '.'
    · subst hc
      rw [numTail_cons, if_pos rfl] at hl
      rw [numTail_cons, if_pos rfl, List.all_append, hl]
      simp [hd]
    · rw [numTail_cons, if_neg hc, Bool.and_eq_true] at hl
      rw [numTail_cons, if_neg hc, hl.1, ih hl.2]
      rfl

theorem numTail_no_dot_digits (l : List Char) (h : numTail l = true)
    (hnd : ¬('.' ∈ l)) : l.all isDigitCh = true := by
  induction l with
  | nil => rfl
  | cons c rest ih =>
    have hc : ¬(c = '.') := fun he => hnd (he ▸ List.mem_cons_self c rest)
    rw [numTail_cons, if_neg hc, Bool.and_eq_true] at h
    rw [List.all_cons, h.1, ih h.2 (fun hm => hnd (List.mem_cons_of_mem c hm))]
    rfl

theorem numTail_matches (l : List Char) (h : numTail l = true) :
    matchesNumRegexL l = true := by
  cases l with
  | nil => rfl
  | cons c rest =>
    by_cases hc : c = '-'
    · subst hc
      rw [numTail_cons, if_neg (by decide : ¬(('-' : Char) = '.')), Bool.and_eq_true] at h
      exact absurd h.1 (by decide)
    · rw [matchesNumRegexL_cons, if_neg hc]
      exact h

theorem matchesNumRegexL_append_digit (l : List Char) (d : Char) (hd : isDigitCh d = true)
    (h : matchesNumRegexL l = true) : matchesNumRegexL (l ++ [d]) = true := by
  cases l with
  | nil =>
    rw [List.nil_append, matchesNumRegexL_cons, if_neg (digit_ne_dash d hd),
      numTail_cons, if_neg (digit_ne_dot d hd), hd]
    rfl
  | cons c rest =>
    by_cases hc : c = '-'
    · subst hc
      rw [matchesNumRegexL_cons, if_pos rfl] at h
      rw [List.cons_append, matchesNumRegexL_cons, if_pos rfl]
      exact numTail_append_digit rest d hd h
    · rw [matchesNumRegexL_cons, if_neg hc] at h
      rw [List.cons_append, matchesNumRegexL_cons, if_neg hc, ← List.cons_append]
      exact numTail_append_digit (c :: rest) d hd h

theorem matchesNumRegexL_append_dot (l : List Char) (hnd : ¬('.' ∈ l))
    (h : matchesNumRegexL l = true) : matchesNumRegexL (l ++ ['.']) = true := by
  cases l with
  | nil => rfl
  | cons c rest =>
    by_cases hc : c = '-'
    · subst hc
      rw [matchesNumRegexL_cons, if_pos rfl] at h
      rw [List.cons_append, matchesNumRegexL_cons, if_pos rfl]
      have hrest : rest.all isDigitCh = true :=
        numTail_no_dot_digits rest h (fun hm => hnd (List.mem_cons_of_mem _ hm))
      have := numTail_digits_dot_digits rest [] hrest rfl
      simpa using this
    · rw [matchesNumRegexL_cons, if_neg hc] at h
      rw [List.cons_append, matchesNumRegexL_cons, if_neg hc, ← List.cons_append]
      have hall : (c :: rest).all isDigitCh = true := numTail_no_dot_digits _ h hnd
      have := numTail_digits_dot_digits (c :: rest) [] hall rfl
      simpa using this

theorem matchesNumRegexL_cons_dash (l : List Char) (hh : l.head? ≠ some '-')
    (h : matchesNumRegexL l = true) : matchesNumRegexL ('-' :: l) = true := by
  rw [matchesNumRegexL_cons, if_pos rfl]
  cases l with
  | nil => rfl
  | cons c rest =>
    have hc : ¬(c = '-') := fun he => hh (by rw [he]; rfl)
    rw [matchesNumRegexL_cons, if_neg hc] at h
    exact h

theorem matchesNumRegexL_tail_dash (rest : List Char)
    (h : matchesNumRegexL ('-' :: rest) = true) : matchesNumRegexL rest = true := by
  rw [matchesNumRegexL_cons, if_pos rfl] at h
  exact numTail_matches rest h

/-! ### Renderer output shapes -/

theorem natCharsAux_all_digits (fuel n : Nat) : (natCharsAux fuel n).all isDigitCh = true := by
  induction fuel generalizing n with
  | zero => rfl
  | succ f ih =>
    unfold natCharsAux
    by_cases h : n < 10
    · rw [if_pos h]
      simp [digitChar_digit]
    · rw [if_neg h]
      rw [List.all_append]
      rw [ih (n / 10)]
      simp [digitChar_digit]

theorem natChars_all_digits (n : Nat) : (natChars n).all isDigitCh = true :=
  natCharsAux_all_digits (n + 1) n

theorem replicate_zero_digits (n : Nat) : (List.replicate n '0').all isDigitCh = true := by
  rw [List.all_eq_true]
  intro x hx
  rw [List.eq_of_mem_replicate hx]
  rfl

theorem take_all {l : List Char} (p : Char → Bool) (n : Nat) (h : l.all p = true) :
    (l.take n).all p = true :=
  sublist_all p (List.take_sublist n l) h

theorem drop_all {l : List Char} (p : Char → Bool) (n : Nat) (h : l.all p = true) :
    (l.drop n).all p = true :=
  sublist_all p (List.drop_sublist n l) h

theorem renderPlainChars_matches (neg : Bool) (m : Nat) (t : Int) :
    matchesNumRegexL (renderPlainChars neg m t) = true := by
  unfold renderPlainChars renderSign
  have hD := natChars_all_digits m
  have hbody : ∀ body : List Char, numTail body = true →
      matchesNumRegexL ((if neg then ['-'] else []) ++ body) = true := by
    intro body hb
    by_cases hneg : neg = true
    · rw [hneg, if_pos rfl, List.cons_append, List.nil_append]
      rw [matchesNumRegexL_cons, if_pos rfl]
      exact hb
    · rw [Bool.eq_false_iff.mpr hneg, if_neg (by simp), List.nil_append]
      exact numTail_matches body hb
  apply hbody
  by_cases ht : (0 : Int) ≤ t
  · rw [if_pos ht]
    apply all_digits_numTail
    rw [List.all_append, hD, replicate_zero_digits]
    rfl
  · rw [if_neg ht]
    by_cases hk : (-t).toNat < (natChars m).length
    · rw [if_pos hk]
      exact numTail_digits_dot_digits _ _ (take_all _ _ hD) (drop_all _ _ hD)
    · rw [if_neg hk]
      rw [numTail_cons, if_neg (by decide : ¬(('0' : Char) = '.'))]
      rw [(by decide : isDigitCh '0' = true)]
      rw [numTail_cons, if_pos rfl]
      rw [List.all_append, replicate_zero_digits, hD]
      rfl

theorem renderExpChars_has_e (neg : Bool) (D : List Char) (E : Int) :
    'e' ∈ renderExpChars neg D E := by
  unfold renderExpChars
  rw [List.append_assoc, List.append_assoc]
  apply List.mem_append_right
  apply List.mem_append_right
  apply List.mem_append_right
  exact List.mem_cons_self 'e' _

theorem any_isLetter_of_mem (l : List Char) (c : Char) (hm : c ∈ l)
    (hc : isLetterCh c = true) : l.any isLetterCh = true :=
  List.any_eq_true.mpr ⟨c, hm, hc⟩

theorem any_isLetter_append_left (l l2 : List Char) (h : l.any isLetterCh = true) :
    (l ++ l2).any isLetterCh = true := by
  rw [List.any_append, h]
  rfl

theorem jsToStringFin_invariant (r : DecRepr) : currentInvariant (jsToStringFin r) := by
  unfold jsToStringFin
  by_cases h0 : r.mant = 0
  · rw [if_pos h0]
    exact Or.inl (by decide)
  · rw [if_neg h0]
    by_cases hE : -6 ≤ r.exp + ((natChars r.mant).length : Int) - 1 ∧
        r.exp + ((natChars r.mant).length : Int) - 1 ≤ 20
    · rw [if_pos hE]
      left
      show matchesNumRegexL (renderPlainChars r.neg r.mant r.exp) = true
      exact renderPlainChars_matches r.neg r.mant r.exp
    · rw [if_neg hE]
      right
      show (renderExpChars r.neg (natChars r.mant)
        (r.exp + ((natChars r.mant).length : Int) - 1)).any isLetterCh = true
      exact any_isLetter_of_mem _ 'e' (renderExpChars_has_e _ _ _) (by decide)

theorem toExponential6_invariant (q : JQ) : currentInvariant (toExponential6 q) := by
  unfold toExponential6
  by_cases h0 : q.isZero = true
  · rw [if_pos h0]
    exact Or.inr (by decide)
  · rw [if_neg h0]
    right
    refine any_isLetter_of_mem _ 'e' ?_ (by decide)
    show 'e' ∈ (renderSign q.isNeg ++ _ ++ '.' :: _ ++ 'e' :: _)
    rw [List.append_assoc, List.append_assoc]
    apply List.mem_append_right
    apply List.mem_append_right
    apply List.mem_append_right
    exact List.mem_cons_self 'e' _

theorem jsToString12_invariant (q : JQ) : currentInvariant (jsToString12 q) :=
  jsToStringFin_invariant (roundSigRepr 12 q)

theorem jsToStringNum_invariant (v : JsNum) : currentInvariant (jsToStringNum v) := by
  cases v with
  | fin q => exact jsToStringFin_invariant _
  | inf b =>
    cases b with
    | true => exact Or.inr (by decide)
    | false => exact Or.inr (by decide)
  | nan => exact Or.inr (by decide)

theorem toExponential6N_invariant (v : JsNum) : currentInvariant (toExponential6N v) := by
  cases v with
  | fin q => exact toExponential6_invariant q
  | inf b =>
    cases b with
    | true => exact Or.inr (by decide)
    | false => exact Or.inr (by decide)
  | nan => exact Or.inr (by decide)

theorem jsToString12N_invariant (v : JsNum) : currentInvariant (jsToString12N v) := by
  cases v with
  | fin q => exact jsToStringFin_invariant _
  | inf b =>
    cases b with
    | true => exact Or.inr (by decide)
    | false => exact Or.inr (by decide)
  | nan => exact Or.inr (by decide)

/-! ### Per-operation preservation of the display invariant -/

theorem formatNumber_invariant (s : CalcState) (h : currentInvariant s.current) :
    currentInvariant (formatNumber s).current := by
  unfold formatNumber
  by_cases h0 : (parseFloat s.current).isNaN = true
  · rw [if_pos h0]
    exact h
  · rw [if_neg h0]
    by_cases h1 : (parseFloat s.current).absGe (zpow10 12) = true
    · rw [if_pos h1]
      exact toExponential6N_invariant _
    · rw [if_neg h1]
      by_cases h2 : ((parseFloat s.current).absLt (zpow10 (-12))
          && !(parseFloat s.current).eqZero) = true
      · rw [if_pos h2]
        exact toExponential6N_invariant _
      · rw [if_neg h2]
        exact jsToString12N_invariant _

theorem computeFinish_invariant (s : CalcState) (origPrev origCurr : String) (op : Op)
    (result : JsNum) : currentInvariant (computeFinish s origPrev origCurr op result).current :=
  formatNumber_invariant { s with current := jsToStringNum result }
    (jsToStringNum_invariant result)

theorem compute_invariant (s : CalcState) (h : currentInvariant s.current) :
    currentInvariant (compute s).current := by
  obtain ⟨cur, prev, op, ow, exp⟩ := s
  cases op with
  | none => cases prev <;> exact h
  | some o =>
    cases prev with
    | none => exact h
    | some prevStr =>
      unfold compute
      dsimp only
      by_cases hn : ((parseFloat prevStr).isNaN || (parseFloat cur).isNaN) = true
      · rw [if_pos hn]
        refine Or.inr ?_
        show ("Error" : String).data.any isLetterCh = true
        decide
      · rw [if_neg hn]
        cases o with
        | add => exact computeFinish_invariant _ _ _ _ _
        | sub => exact computeFinish_invariant _ _ _ _ _
        | mul => exact computeFinish_invariant _ _ _ _ _
        | div =>
          dsimp only
          by_cases hz : (parseFloat cur).eqZero = true
          · rw [if_pos hz]
            refine Or.inr ?_
            show ("Cannot divide by zero" : String).data.any isLetterCh = true
            decide
          · rw [if_neg hz]
            exact computeFinish_invariant _ _ _ _ _

theorem setOperator_invariant (op : Op) (s : CalcState) (h : currentInvariant s.current) :
    currentInvariant (setOperator op s).current := by
  show currentInvariant (if s.operator.isSome && !s.overwrite then compute s else s).current
  by_cases hcond : (s.operator.isSome && !s.overwrite) = true
  · rw [if_pos hcond]
    exact compute_invariant s h
  · rw [if_neg hcond]
    exact h

theorem inputDigit_invariant (d : Fin 10) (s : CalcState) (h : currentInvariant s.current) :
    currentInvariant (inputDigit d s).current := by
  unfold inputDigit
  by_cases h1 : s.overwrite = true
  · rw [if_pos h1]
    exact Or.inl (numTail_matches _ (all_digits_numTail _ (by simp [digitChar_digit])))
  · rw [if_neg h1]
    by_cases h2 : 12 ≤ s.current.length
    · rw [if_pos h2]
      exact h
    · rw [if_neg h2]
      by_cases h3 : s.current = "0"
      · rw [if_pos h3]
        exact Or.inl (numTail_matches _ (all_digits_numTail _ (by simp [digitChar_digit])))
      · rw [if_neg h3]
        rcases h with hm | hl
        · exact Or.inl (matchesNumRegexL_append_digit _ _ (digitChar_digit _) hm)
        · exact Or.inr (any_isLetter_append_left _ _ hl)

theorem inputDot_invariant (s : CalcState) (h : currentInvariant s.current) :
    currentInvariant (inputDot s).current := by
  unfold inputDot
  by_cases h1 : s.overwrite = true
  · rw [if_pos h1]
    refine Or.inl ?_
    show matchesNumRegex "0." = true
    decide
  · rw [if_neg h1]
    by_cases h2 : s.current.data.contains '.' = true
    · rw [if_pos h2]
      exact h
    · rw [if_neg h2]
      have hnd : ¬('.' ∈ s.current.data) := by
        intro hm
        exact h2 (by simpa using hm)
      rcases h with hm | hl
      · exact Or.inl (matchesNumRegexL_append_dot _ hnd hm)
      · exact Or.inr (any_isLetter_append_left _ _ hl)

theorem toggleSign_invariant (s : CalcState) (h : currentInvariant s.current) :
    currentInvariant (toggleSign s).current := by
  unfold toggleSign
  by_cases h1 : s.current = "0"
  · rw [if_pos h1]
    exact h
  · rw [if_neg h1]
    by_cases h2 : s.current.data.head? = some '-'
    · rw [if_pos h2]
      unfold currentInvariant matchesNumRegex at h
      cases hd : s.current.data with
      | nil => rw [hd] at h2; simp at h2
      | cons c rest =>
        rw [hd] at h2
        have hc : c = '-' := by simpa using h2
        subst hc
        rw [hd] at h
        show currentInvariant (String.mk ('-' :: rest).tail)
        rcases h with hm | hl
        · exact Or.inl (matchesNumRegexL_tail_dash rest hm)
        · refine Or.inr ?_
          show rest.any isLetterCh = true
          rw [List.any_cons, (by decide : isLetterCh '-' = false)] at hl
          simpa using hl
    · rw [if_neg h2]
      show currentInvariant (String.mk ('-' :: s.current.data))
      rcases h with hm | hl
      · exact Or.inl (matchesNumRegexL_cons_dash _ h2 hm)
      · refine Or.inr ?_
        show ('-' :: s.current.data).any isLetterCh = true
        rw [List.any_cons, hl]
        simp

theorem inputPercent_invariant (s : CalcState) (h : currentInvariant s.current) :
    currentInvariant (inputPercent s).current := by
  unfold inputPercent
  by_cases h0 : (parseFloat s.current).isNaN = true
  · rw [if_pos h0]
    exact h
  · rw [if_neg h0]
    exact formatNumber_invariant _ (jsToStringNum_invariant _)

theorem evaluateExpression_invariant (s : CalcState) (e : Option String)
    (h : currentInvariant s.current) :
    currentInvariant ((evaluateExpression s e).1).current := by
  cases e with
  | none => exact h
  | some expr =>
    unfold evaluateExpression
    dsimp only
    by_cases h1 : expr = ""
    · rw [if_pos h1]
      exact h
    · rw [if_neg h1]
      cases hm : mathjsEvaluate (cleanExpression expr) with
      | error u => exact h
      | ok v =>
        cases v with
        | inf b => exact h
        | nan => exact h
        | fin result =>
          show currentInvariant
            (if ((zpow10 12).le result.abs || result.abs.lt (zpow10 (-12)) && !result.isZero)
             then toExponential6 result else jsToString12 result)
          by_cases hc : ((zpow10 12).le result.abs
              || result.abs.lt (zpow10 (-12)) && !result.isZero) = true
          · rw [if_pos hc]
            exact toExponential6_invariant result
          · rw [if_neg hc]
            exact jsToString12_invariant result

/-! ### Claim C1 -/

/-- C1 (counterexample): after `10 ÷ 0 =` the display is the sentinel
`"Cannot divide by zero"`, and a further `inputDot` appends a dot to
it, reaching a state whose `current` neither matches `^-?\d*\.?\d*$`
nor is one of the two sentinel strings. -/
theorem c1_counterexample :
    Reachable (applyActs [.digit 1, .digit 0, .setOp .div, .digit 0, .comp, .dot]
      resetState) ∧
    ¬ specCurrentInvariant (applyActs [.digit 1, .digit 0, .setOp .div, .digit 0, .comp, .dot]
      resetState).current := by
  constructor
  · exact Reachable.step .dot (Reachable.step .comp (Reachable.step (.digit 0)
      (Reachable.step (.setOp .div) (Reachable.step (.digit 0)
        (Reachable.step (.digit 1) Reachable.init)))))
  · intro hspec
    have hval : (applyActs [.digit 1, .digit 0, .setOp .div, .digit 0, .comp, .dot]
        resetState).current = "Cannot divide by zero." := by decide
    unfold specCurrentInvariant at hspec
    rw [hval] at hspec
    rcases hspec with hm | he | hE
    · exact absurd hm (by decide)
    · exact absurd he (by decide)
    · exact absurd hE (by decide)

/-- C1 (amended): for every state reachable from the initial zero
state via the state-machine operations with valid arguments, `current`
either matches `^-?\d*\.?\d*$` or contains at least one letter — the
latter covers the two sentinel strings, the overflow displays
`"Infinity"` / `"-Infinity"` / `"NaN"`, exponential-notation results,
and every state obtained from one of those by further sign/dot/digit
editing. -/
theorem c1_current_invariant_amended (s : CalcState) (h : Reachable s) :
    currentInvariant s.current := by
  induction h with
  | init => exact Or.inl (by decide)
  | step a hs ih =>
    cases a with
    | digit d => exact inputDigit_invariant d _ ih
    | dot => exact inputDot_invariant _ ih
    | setOp op => exact setOperator_invariant op _ ih
    | sign => exact toggleSign_invariant _ ih
    | percent => exact inputPercent_invariant _ ih
    | clearA =>
      refine Or.inl ?_
      show matchesNumRegex "0" = true
      decide
    | clearE =>
      refine Or.inl ?_
      show matchesNumRegex "0" = true
      decide
    | comp => exact compute_invariant _ ih
    | evalExpr e => exact evaluateExpression_invariant _ e ih

theorem c1_witness :
    currentInvariant (applyActs [.digit 1, .digit 0, .setOp .div, .digit 0, .comp, .dot]
      resetState).current :=
  c1_current_invariant_amended _
    (Reachable.step .dot (Reachable.step .comp (Reachable.step (.digit 0)
      (Reachable.step (.setOp .div) (Reachable.step (.digit 0)
        (Reachable.step (.digit 1) Reachable.init))))))
